import Mathlib

/-
Shallow embedding of the vote-casting core of the ntuvb-allstar voting app
(src/voting.py, with entity defaults of the absent models.py taken from the
specification). The datastore is modelled as association lists:
voters keyed by (election key, student id), candidates and positions keyed by
numeric datastore ids, with a candidate holding the key of its parent position
and a position holding the key of its parent election. A transactional
function that raises is modelled as returning an error, and the caller keeps
the pre-call store (ndb rolls the transaction back).
-/

/-- Lookup of the first entry with the given key in an association list
(datastore get by key). -/
def lookupKV {K V : Type} [DecidableEq K] : List (K × V) → K → Option V
  | [], _ => none
  | q :: rest, k => if k = q.1 then some q.2 else lookupKV rest k

/-- Write of a value at a key: replaces the first entry with that key, or
appends a new entry when the key is absent (datastore put). -/
def putKV {K V : Type} [DecidableEq K] : List (K × V) → K → V → List (K × V)
  | [], k, v => [(k, v)]
  | q :: rest, k, v => if k = q.1 then (k, v) :: rest else q :: putKV rest k v

deriving instance DecidableEq for Except

/-- VotingUser entity. Modelled from the spec: models.py is not under src,
so the field defaults (voted false, votes empty, email_count zero,
create_time the creation timestamp) follow the specification of the Voter
record. Times are in seconds. -/
structure Voter where
  student_id : String
  token : String
  voted : Bool
  votes : List Nat
  email_count : Nat
  create_time : Nat
  deriving DecidableEq

/-- Candidate entity: parent position key and running tally. -/
structure Candidate where
  position : Nat
  num_votes : Nat
  deriving DecidableEq

/-- Position entity: parent election key and the per-voter selection limit. -/
structure Position where
  election : Nat
  votes_per_person : Nat
  deriving DecidableEq

/-- The datastore contents relevant to the vote core. -/
structure Store where
  voters : List ((Nat × String) × Voter)
  candidates : List (Nat × Candidate)
  positions : List (Nat × Position)
  deriving DecidableEq

/-- Errors raised inside the _do_vote transaction: the explicit
Exception for a repeated vote, and a crash (attribute access on None) when a
key fails to resolve. -/
inductive DoVoteErr
  | alreadyVoted
  | crash
  deriving DecidableEq

/-- Outcomes of the vote_with_data request handler other than success:
403 for a bad token, an unhandled server error when a candidate key does not
resolve, 403 Invalid votes from the per-position count check, and 403
Transaction fail when _do_vote raises. -/
inductive VoteErr
  | invalidToken
  | serverError
  | invalidVotes
  | transactionFail
  deriving DecidableEq

/-- Error raised by _get_or_create_voting_user on a non-lowercase id. -/
inductive RegErr
  | invalidIdentity
  deriving DecidableEq

/-- Embedding of the Python str.lower normalization on identifiers: each
character lowercased (identifiers are ASCII student ids). -/
def lowerStr (s : String) : String := String.mk (s.data.map Char.toLower)

/-- The voter record built for a first-time registration. Modelled from the
spec: models.py is absent, the defaults are the zeroed counters and the
creation timestamp the spec describes. -/
def mkVoter (student_id fresh_token : String) (now : Nat) : Voter :=
  { student_id := student_id, token := fresh_token, voted := false,
    votes := [], email_count := 0, create_time := now }

/-- Embedding of _get_or_create_voting_user (src/voting.py lines 32-48).
The fresh uuid4 token is passed in as an argument, and now is the creation
timestamp. On the lowercase failure the transaction raises, so no state is
returned. -/
def _get_or_create_voting_user (st : Store) (election_key : Nat)
    (student_id fresh_token : String) (now : Nat) :
    Except RegErr (Store × Voter) :=
  if student_id ≠ lowerStr student_id then .error .invalidIdentity
  else
    match lookupKV st.voters (election_key, student_id) with
    | some voting_user => .ok (st, voting_user)
    | none =>
      let voting_user := mkVoter student_id fresh_token now
      .ok ({ st with
              voters := putKV st.voters (election_key, student_id) voting_user },
           voting_user)

/-- Embedding of _get_user_from_token (src/voting.py lines 51-54): first
voter whose token matches, searched over all voters of all elections. -/
def userFromToken (st : Store) (token : String) :
    Option ((Nat × String) × Voter) :=
  st.voters.find? (fun q => q.2.token == token)

/-- Embedding of ndb.get_multi over candidate keys: resolves every key, none
when any key is missing (in the source a missing entity surfaces as None and
the subsequent attribute access raises). -/
def resolveAll (m : List (Nat × Candidate)) : List Nat → Option (List Candidate)
  | [] => some []
  | k :: ks =>
    match lookupKV m k, resolveAll m ks with
    | some c, some cs => some (c :: cs)
    | _, _ => none

/-- The tally update loop of _do_vote (src/voting.py lines 87-90): for each
key occurrence, the entity is fetched and its num_votes incremented by one
(the ndb in-context cache makes a duplicate key hit the same entity). -/
def incVotes (m : List (Nat × Candidate)) (ks : List Nat) :
    List (Nat × Candidate) :=
  ks.foldl (fun acc k =>
    match lookupKV acc k with
    | some c => putKV acc k { c with num_votes := c.num_votes + 1 }
    | none => acc) m

/-- Embedding of the transactional _do_vote (src/voting.py lines 71-90):
re-read the voter, reject when already voted, write the ballot, then
increment every referenced tally. A raise rolls every write back. -/
def _do_vote (st : Store) (user_key : Nat × String) (candidate_keys : List Nat) :
    Except DoVoteErr Store :=
  match lookupKV st.voters user_key with
  | none => .error .crash
  | some user =>
    if user.voted then .error .alreadyVoted
    else
      match resolveAll st.candidates candidate_keys with
      | none => .error .crash
      | some _ =>
        .ok { st with
               voters := putKV st.voters user_key
                 { user with votes := candidate_keys, voted := true },
               candidates := incVotes st.candidates candidate_keys }

/-- Insertion of a key into a sorted duplicate-free list of keys. -/
def insertKey (x : Nat) : List Nat → List Nat
  | [] => [x]
  | y :: ys => if x = y then y :: ys else if x < y then x :: y :: ys else y :: insertKey x ys

/-- The distinct position keys of a candidate list in ascending order: the
iteration order of groupby over the sorted candidate list in vote_with_data
(src/voting.py lines 284-287). -/
def sortedPosKeys (cands : List Candidate) : List Nat :=
  cands.foldr (fun c acc => insertKey c.position acc) []

/-- The number of selections in the resolved candidate list that belong to
position p (the length of the groupby group for p). -/
def countPosition (cands : List Candidate) (p : Nat) : Nat :=
  (cands.map (fun c => if c.position = p then 1 else 0)).sum

/-- The per-position limit loop of vote_with_data (src/voting.py lines
287-290): for each group in sorted key order, fetch the position and abort
with 403 Invalid votes when the group exceeds votes_per_person; a position
that fails to resolve crashes the handler. -/
def checkPositions (positions : List (Nat × Position)) (cands : List Candidate) :
    List Nat → Except VoteErr Unit
  | [] => .ok ()
  | p :: ps =>
    match lookupKV positions p with
    | none => .error .serverError
    | some position =>
      if position.votes_per_person < countPosition cands p then
        .error .invalidVotes
      else checkPositions positions cands ps

/-- Embedding of the vote_with_data request handler (src/voting.py lines
265-296): token lookup, candidate resolution, per-position count check, then
the _do_vote transaction with any raise mapped to 403 Transaction fail. -/
def vote_with_data (st : Store) (token : String) (candidate_ids : List Nat) :
    Except VoteErr Store :=
  match userFromToken st token with
  | none => .error .invalidToken
  | some pr =>
    match resolveAll st.candidates candidate_ids with
    | none => .error .serverError
    | some cands =>
      match checkPositions st.positions cands (sortedPosKeys cands) with
      | .error e => .error e
      | .ok _ =>
        match _do_vote st pr.1 candidate_ids with
        | .ok st2 => .ok st2
        | .error _ => .error .transactionFail

/-- The store the caller observes after a transactional call: the returned
store on success, the unchanged pre-call store when the transaction raised
and rolled back. -/
def afterTxn {E : Type} (st : Store) : Except E Store → Store
  | .ok st2 => st2
  | .error _ => st

/-- The store the caller observes after _get_or_create_voting_user. -/
def afterReg (st : Store) : Except RegErr (Store × Voter) → Store
  | .ok r => r.1
  | .error _ => st

/-- Embedding of _get_rest_wait_time (src/voting.py lines 157-170), with the
current wall clock passed in seconds. -/
def _get_rest_wait_time (voting_user : Voter) (now_seconds : Nat) : Nat :=
  if voting_user.email_count > 0 then
    let minute_diff := (now_seconds - voting_user.create_time) / 60
    let minutes_should_wait := 10 * 2 ^ (voting_user.email_count - 1)
    if minute_diff < minutes_should_wait then minutes_should_wait - minute_diff
    else 0
  else 0

/-- A posted form or JSON value for the forced_send field: a string, a JSON
boolean, or absent (post_data.get returning None). -/
inductive PostValue
  | str (s : String)
  | bool (b : Bool)
  | absent
  deriving DecidableEq

/-- Embedding of the forced_send parse in send_voting_email (src/voting.py
line 209): the Python equality with the string true is False for every
non-string value and for every other string. -/
def parseForcedSend : PostValue → Bool
  | .str s => s == "true"
  | .bool _ => false
  | .absent => false

/-- Outcome of one send_voting_email request for an existing voter. -/
inductive EmailResult
  | alreadyVoted
  | sent
  | notSent
  deriving DecidableEq

/-- Embedding of the send decision of the send_voting_email handler
(src/voting.py lines 207-226) for a given voter record: the already-voted
early return, then an email is sent only when email_count is zero or
forced_send holds with an expired wait. -/
def send_voting_email (forced_send_raw : PostValue) (voting_user : Voter)
    (now_seconds : Nat) : EmailResult :=
  let forced_send := parseForcedSend forced_send_raw
  if voting_user.voted then .alreadyVoted
  else
    let rest_wait_time := _get_rest_wait_time voting_user now_seconds
    if voting_user.email_count == 0 || (forced_send && rest_wait_time == 0) then
      .sent
    else .notSent

/-- Number of voters whose ballot is recorded, over the whole system. -/
def countVoted (l : List ((Nat × String) × Voter)) : Nat :=
  (l.filter (fun q => q.2.voted)).length

/-- Number of voters of election e whose ballot is recorded. -/
def countVotedElection (l : List ((Nat × String) × Voter)) (e : Nat) : Nat :=
  (l.filter (fun q => decide (q.1.1 = e) && q.2.voted)).length

/-- The tally total of position p: the sum of num_votes over the candidate
entries whose parent is p. -/
def sumVotes (m : List (Nat × Candidate)) (p : Nat) : Nat :=
  (m.map (fun q => if q.2.position = p then q.2.num_votes else 0)).sum

/-- Per-occurrence position count of a key list, resolved against a
candidate table: how many of the keys point at a candidate of position p. -/
def countPosKeys (m : List (Nat × Candidate)) (ks : List Nat) (p : Nat) : Nat :=
  (ks.map (fun k =>
    match lookupKV m k with
    | some c => if c.position = p then 1 else 0
    | none => 0)).sum

/-- Number of voter entries carrying a given key. -/
def keyCount (l : List ((Nat × String) × Voter)) (k : Nat × String) : Nat :=
  (l.filter (fun q => decide (q.1 = k))).length

/-- A starting store for vote submissions: no ballot recorded and every tally
zero. -/
def Init (st : Store) : Prop :=
  (∀ q ∈ st.voters, q.2.voted = false) ∧ (∀ q ∈ st.candidates, q.2.num_votes = 0)

/-- Reachability by any sequence of vote_with_data requests: a failed request
leaves the store unchanged, so only committed requests appear as steps. -/
inductive Reach : Store → Store → Prop
  | refl (st : Store) : Reach st st
  | step (st st1 st2 : Store) (token : String) (ids : List Nat) :
      Reach st st1 → vote_with_data st1 token ids = Except.ok st2 →
      Reach st st2

/-- Reachability by registration requests whose fresh token is arbitrary
(uuid4 output is random and the source never checks it against existing
tokens). -/
inductive ReachRegAny : Store → Store → Prop
  | refl (st : Store) : ReachRegAny st st
  | step (st st1 st2 : Store) (e : Nat) (sid tok : String) (now : Nat) (v : Voter) :
      ReachRegAny st st1 →
      _get_or_create_voting_user st1 e sid tok now = Except.ok (st2, v) →
      ReachRegAny st st2

/-- Reachability by registration requests whose fresh token is new to the
registry (uuid4 assumed collision-free). -/
inductive ReachRegFresh : Store → Store → Prop
  | refl (st : Store) : ReachRegFresh st st
  | step (st st1 st2 : Store) (e : Nat) (sid tok : String) (now : Nat) (v : Voter) :
      ReachRegFresh st st1 →
      (∀ q ∈ st1.voters, q.2.token ≠ tok) →
      _get_or_create_voting_user st1 e sid tok now = Except.ok (st2, v) →
      ReachRegFresh st st2

/-- Pairwise distinctness of the tokens held by the voter records. -/
def TokensDistinct (st : Store) : Prop :=
  List.Pairwise (fun a b => a.2.token ≠ b.2.token) st.voters

/-
Concrete stores used to instantiate the theorems.
-/

/-- A registered voter of election 1 holding token t, ballot not yet cast. -/
def vA : Voter :=
  { student_id := "a", token := "t", voted := false, votes := [],
    email_count := 0, create_time := 0 }

/-- The same voter after committing an empty ballot. -/
def vAVoted : Voter := { vA with voted := true }

/-- The same voter after committing the ballot [3]. -/
def vABallot : Voter := { vA with votes := [3], voted := true }

/-- A store whose single voter has already voted. -/
def stAlready : Store :=
  { voters := [((1, "a"), vAVoted)], candidates := [], positions := [] }

/-- One unvoted voter, one candidate (key 3) under position 2 of election 1,
limit one selection. -/
def stOne : Store :=
  { voters := [((1, "a"), vA)],
    candidates := [(3, { position := 2, num_votes := 0 })],
    positions := [(2, { election := 1, votes_per_person := 1 })] }

/-- The store stOne after the voter committed the empty ballot. -/
def stOneEmptyBallot : Store := { stOne with voters := [((1, "a"), vAVoted)] }

/-- The store stOne after the voter committed the ballot [3]. -/
def stOneVoted : Store :=
  { voters := [((1, "a"), vABallot)],
    candidates := [(3, { position := 2, num_votes := 1 })],
    positions := [(2, { election := 1, votes_per_person := 1 })] }

/-- Two candidates under one position with a limit of one selection. -/
def stTwo : Store :=
  { voters := [((1, "a"), vA)],
    candidates := [(3, { position := 2, num_votes := 0 }),
                   (4, { position := 2, num_votes := 0 })],
    positions := [(2, { election := 1, votes_per_person := 1 })] }

/-- A voter of election 1 and a candidate whose position belongs to a
different election, key 5. -/
def stCross : Store :=
  { voters := [((1, "a"), vA)],
    candidates := [(3, { position := 2, num_votes := 0 })],
    positions := [(2, { election := 5, votes_per_person := 1 })] }

/-- The store stCross after the election-1 voter voted for the election-5
candidate. -/
def stCrossAfter : Store :=
  { voters := [((1, "a"), vABallot)],
    candidates := [(3, { position := 2, num_votes := 1 })],
    positions := [(2, { election := 5, votes_per_person := 1 })] }

/-- The empty datastore. -/
def stEmptyStore : Store := { voters := [], candidates := [], positions := [] }

/-- The registry after two registrations that both drew the token t. -/
def stDupTok : Store :=
  { voters := [((1, "a"), mkVoter "a" "t" 0), ((1, "b"), mkVoter "b" "t" 0)],
    candidates := [], positions := [] }

/-- The registry after two registrations with distinct fresh tokens. -/
def stFreshTok : Store :=
  { voters := [((1, "a"), mkVoter "a" "t" 0), ((1, "b"), mkVoter "b" "u" 0)],
    candidates := [], positions := [] }

/-
Association list lemmas.
-/

theorem lookupKV_putKV_self {K V : Type} [DecidableEq K] (m : List (K × V))
    (k : K) (v : V) : lookupKV (putKV m k v) k = some v := by
  induction m with
  | nil => simp [putKV, lookupKV]
  | cons q rest ih =>
    by_cases h : k = q.1
    · simp [putKV, lookupKV, h]
    · simp [putKV, lookupKV, h, ih]

theorem lookupKV_putKV_ne {K V : Type} [DecidableEq K] (m : List (K × V))
    (k k' : K) (v : V) (h : k' ≠ k) :
    lookupKV (putKV m k v) k' = lookupKV m k' := by
  induction m with
  | nil => simp [putKV, lookupKV, h]
  | cons q rest ih =>
    by_cases hq : k = q.1
    · subst hq
      simp [putKV, lookupKV, h]
    · by_cases hq' : k' = q.1
      · simp [putKV, lookupKV, hq, hq']
      · simp [putKV, lookupKV, hq, hq', ih]

theorem putKV_absent {K V : Type} [DecidableEq K] (m : List (K × V))
    (k : K) (v : V) (h : lookupKV m k = none) : putKV m k v = m ++ [(k, v)] := by
  induction m with
  | nil => simp [putKV]
  | cons q rest ih =>
    by_cases hq : k = q.1
    · simp [lookupKV, hq] at h
    · simp [lookupKV, hq] at h
      simp [putKV, hq, ih h]

/-
resolveAll lemmas.
-/

theorem resolveAll_isSome_of (m : List (Nat × Candidate)) (ids : List Nat)
    (h : ∀ k ∈ ids, (lookupKV m k).isSome) :
    ∃ cs, resolveAll m ids = some cs := by
  induction ids with
  | nil => exact ⟨[], rfl⟩
  | cons k ks ih =>
    have hk := h k (by simp)
    obtain ⟨c, hc⟩ := Option.isSome_iff_exists.mp hk
    obtain ⟨cs, hcs⟩ := ih (fun k' hk' => h k' (by simp [hk']))
    exact ⟨c :: cs, by simp [resolveAll, hc, hcs]⟩

theorem resolveAll_mem_isSome (m : List (Nat × Candidate)) (ids : List Nat)
    (cs : List Candidate) (h : resolveAll m ids = some cs) :
    ∀ k ∈ ids, (lookupKV m k).isSome := by
  induction ids generalizing cs with
  | nil => simp
  | cons k ks ih =>
    intro k' hk'
    unfold resolveAll at h
    cases hc : lookupKV m k with
    | none => rw [hc] at h; simp at h
    | some c =>
      rw [hc] at h
      cases hcs : resolveAll m ks with
      | none => rw [hcs] at h; simp at h
      | some cs' =>
        rcases List.mem_cons.mp hk' with h1 | h1
        · subst h1; simp [hc]
        · exact ih cs' hcs k' h1

theorem resolveAll_none_of (m : List (Nat × Candidate)) (ids : List Nat)
    (k : Nat) (hk : k ∈ ids) (h : lookupKV m k = none) :
    resolveAll m ids = none := by
  induction ids with
  | nil => simp at hk
  | cons k0 ks ih =>
    rcases List.mem_cons.mp hk with h1 | h1
    · subst h1; simp [resolveAll, h]
    · cases hc : lookupKV m k0 with
      | none => simp [resolveAll, hc]
      | some c => simp [resolveAll, hc, ih h1]

/-
incVotes lookup lemmas.
-/

theorem incVotes_cons (m : List (Nat × Candidate)) (k : Nat) (ks : List Nat) :
    incVotes m (k :: ks) =
      incVotes (match lookupKV m k with
        | some c => putKV m k { c with num_votes := c.num_votes + 1 }
        | none => m) ks := rfl

theorem incVotes_lookup_not_mem (ids : List Nat) (m : List (Nat × Candidate))
    (k : Nat) (h : k ∉ ids) :
    lookupKV (incVotes m ids) k = lookupKV m k := by
  induction ids generalizing m with
  | nil => rfl
  | cons k0 ks ih =>
    have hne : k ≠ k0 := fun he => h (by simp [he])
    have hks : k ∉ ks := fun he => h (by simp [he])
    rw [incVotes_cons]
    cases hc : lookupKV m k0 with
    | none => simp only []; exact ih m hks
    | some c =>
      simp only []
      rw [ih _ hks]
      exact lookupKV_putKV_ne m k0 k _ hne

theorem incVotes_lookup_nodup (ids : List Nat) (m : List (Nat × Candidate))
    (k : Nat) (c : Candidate) (hnd : ids.Nodup) (hk : k ∈ ids)
    (hc : lookupKV m k = some c) :
    lookupKV (incVotes m ids) k = some { c with num_votes := c.num_votes + 1 } := by
  induction ids generalizing m c with
  | nil => simp at hk
  | cons k0 ks ih =>
    have hnd0 : k0 ∉ ks := (List.nodup_cons.mp hnd).1
    have hndk : ks.Nodup := (List.nodup_cons.mp hnd).2
    rcases List.mem_cons.mp hk with h1 | h1
    · subst h1
      rw [incVotes_cons, hc]
      simp only []
      rw [incVotes_lookup_not_mem ks _ k hnd0]
      exact lookupKV_putKV_self m k _
    · have hne : k ≠ k0 := fun he => hnd0 (he ▸ h1)
      rw [incVotes_cons]
      cases hc0 : lookupKV m k0 with
      | none =>
        simp only []
        exact ih m c hndk h1 hc
      | some c0 =>
        simp only []
        exact ih _ c hndk h1 (by rw [lookupKV_putKV_ne m k0 k _ hne]; exact hc)

/-
Tally summation lemmas.
-/

theorem sumVotes_cons (q : (Nat × Candidate)) (m : List (Nat × Candidate)) (p : Nat) :
    sumVotes (q :: m) p
      = (if q.2.position = p then q.2.num_votes else 0) + sumVotes m p := by
  simp [sumVotes]

theorem countPosition_cons (c : Candidate) (cs : List Candidate) (p : Nat) :
    countPosition (c :: cs) p
      = (if c.position = p then 1 else 0) + countPosition cs p := by
  simp [countPosition]

theorem countPosKeys_cons (m : List (Nat × Candidate)) (k : Nat) (ks : List Nat)
    (p : Nat) :
    countPosKeys m (k :: ks) p
      = (match lookupKV m k with
          | some c => if c.position = p then 1 else 0
          | none => 0) + countPosKeys m ks p := by
  simp [countPosKeys]

theorem sumVotes_zero (m : List (Nat × Candidate)) (p : Nat)
    (h : ∀ q ∈ m, q.2.num_votes = 0) : sumVotes m p = 0 := by
  induction m with
  | nil => rfl
  | cons q rest ih =>
    have hq : q.2.num_votes = 0 := h q (by simp)
    have ht : sumVotes rest p = 0 := ih (fun q' hq' => h q' (by simp [hq']))
    rw [sumVotes_cons, ht, hq]
    simp

theorem sumVotes_putKV_inc (m : List (Nat × Candidate)) (k : Nat)
    (c : Candidate) (h : lookupKV m k = some c) (p : Nat) :
    sumVotes (putKV m k { c with num_votes := c.num_votes + 1 }) p
      = sumVotes m p + (if c.position = p then 1 else 0) := by
  induction m with
  | nil => simp [lookupKV] at h
  | cons q rest ih =>
    by_cases hq : k = q.1
    · have hc : q.2 = c := by
        have := h
        simp [lookupKV, hq] at this
        exact this
      simp only [putKV, if_pos hq]
      rw [sumVotes_cons, sumVotes_cons, hc]
      show (if c.position = p then c.num_votes + 1 else 0) + sumVotes rest p
          = ((if c.position = p then c.num_votes else 0) + sumVotes rest p)
            + (if c.position = p then 1 else 0)
      by_cases hp : c.position = p <;> simp [hp] <;> omega
    · have h' : lookupKV rest k = some c := by
        simpa [lookupKV, hq] using h
      simp only [putKV, if_neg hq]
      rw [sumVotes_cons, sumVotes_cons, ih h']
      omega

theorem countPosKeys_putKV (m : List (Nat × Candidate)) (k : Nat)
    (c c' : Candidate) (h : lookupKV m k = some c) (hp : c'.position = c.position)
    (ks : List Nat) (p : Nat) :
    countPosKeys (putKV m k c') ks p = countPosKeys m ks p := by
  induction ks with
  | nil => rfl
  | cons k0 ks0 ih =>
    rw [countPosKeys_cons, countPosKeys_cons, ih]
    by_cases hk : k0 = k
    · subst hk
      rw [lookupKV_putKV_self m k0 c', h]
      simp only []
      rw [hp]
    · rw [lookupKV_putKV_ne m k k0 c' hk]

theorem sumVotes_incVotes (ids : List Nat) (m : List (Nat × Candidate)) (p : Nat)
    (h : ∀ k ∈ ids, (lookupKV m k).isSome) :
    sumVotes (incVotes m ids) p = sumVotes m p + countPosKeys m ids p := by
  induction ids generalizing m with
  | nil => simp [incVotes, countPosKeys]
  | cons k ks ih =>
    have hk := h k (by simp)
    obtain ⟨c, hc⟩ := Option.isSome_iff_exists.mp hk
    rw [incVotes_cons, hc]
    simp only []
    have hpres : ∀ k' ∈ ks,
        (lookupKV (putKV m k { c with num_votes := c.num_votes + 1 }) k').isSome := by
      intro k' hk'
      by_cases he : k' = k
      · subst he
        rw [lookupKV_putKV_self]
        simp
      · rw [lookupKV_putKV_ne m k k' _ he]
        exact h k' (by simp [hk'])
    rw [ih _ hpres]
    rw [sumVotes_putKV_inc m k c hc p]
    rw [countPosKeys_putKV m k c { c with num_votes := c.num_votes + 1 } hc rfl ks p]
    rw [countPosKeys_cons, hc]
    simp only []
    omega

theorem countPosKeys_resolveAll (m : List (Nat × Candidate)) (ids : List Nat)
    (cands : List Candidate) (h : resolveAll m ids = some cands) (p : Nat) :
    countPosKeys m ids p = countPosition cands p := by
  induction ids generalizing cands with
  | nil =>
    simp [resolveAll] at h
    subst h
    rfl
  | cons k ks ih =>
    unfold resolveAll at h
    cases hc : lookupKV m k with
    | none => rw [hc] at h; simp at h
    | some c =>
      rw [hc] at h
      cases hcs : resolveAll m ks with
      | none => rw [hcs] at h; simp at h
      | some cs =>
        rw [hcs] at h
        simp only [Option.some.injEq] at h
        subst h
        rw [countPosKeys_cons, countPosition_cons, hc, ih cs hcs]

theorem countPosition_pos_exists (cands : List Candidate) (p : Nat)
    (h : 0 < countPosition cands p) : ∃ c ∈ cands, c.position = p := by
  induction cands with
  | nil => simp [countPosition] at h
  | cons c rest ih =>
    by_cases hp : c.position = p
    · exact ⟨c, by simp, hp⟩
    · rw [countPosition_cons, if_neg hp, Nat.zero_add] at h
      obtain ⟨c', hc', hp'⟩ := ih h
      exact ⟨c', by simp [hc'], hp'⟩

/-
sortedPosKeys and checkPositions lemmas.
-/

theorem mem_insertKey (a x : Nat) (l : List Nat) :
    a ∈ insertKey x l ↔ a = x ∨ a ∈ l := by
  induction l with
  | nil => simp [insertKey]
  | cons y ys ih =>
    by_cases hxy : x = y
    · subst hxy
      simp [insertKey]
    · by_cases hlt : x < y
      · simp [insertKey, hxy, hlt]
      · simp [insertKey, hxy, hlt, ih]
        tauto

theorem mem_sortedPosKeys_iff (cands : List Candidate) (p : Nat) :
    p ∈ sortedPosKeys cands ↔ ∃ c ∈ cands, c.position = p := by
  induction cands with
  | nil => simp [sortedPosKeys]
  | cons c rest ih =>
    simp only [sortedPosKeys, List.foldr_cons] at ih ⊢
    rw [mem_insertKey, ih]
    constructor
    · rintro (h | ⟨c', hc', hp'⟩)
      · exact ⟨c, by simp, h.symm⟩
      · exact ⟨c', by simp [hc'], hp'⟩
    · rintro ⟨c', hc', hp'⟩
      rcases List.mem_cons.mp hc' with h1 | h1
      · subst h1
        exact .inl hp'.symm
      · exact .inr ⟨c', h1, hp'⟩

theorem checkPositions_cons (P : List (Nat × Position)) (cands : List Candidate)
    (p : Nat) (ps : List Nat) :
    checkPositions P cands (p :: ps)
      = match lookupKV P p with
        | none => Except.error VoteErr.serverError
        | some position =>
          if position.votes_per_person < countPosition cands p then
            Except.error VoteErr.invalidVotes
          else checkPositions P cands ps := rfl

theorem checkPositions_ok_spec (P : List (Nat × Position)) (cands : List Candidate)
    (L : List Nat) (h : checkPositions P cands L = Except.ok ()) :
    ∀ p ∈ L, ∃ pos, lookupKV P p = some pos ∧
      countPosition cands p ≤ pos.votes_per_person := by
  induction L with
  | nil => simp
  | cons p0 ps ih =>
    intro p hp
    rw [checkPositions_cons] at h
    cases hq : lookupKV P p0 with
    | none => rw [hq] at h; simp at h
    | some pos0 =>
      rw [hq] at h
      simp only [] at h
      by_cases hcnt : pos0.votes_per_person < countPosition cands p0
      · rw [if_pos hcnt] at h
        simp at h
      · rw [if_neg hcnt] at h
        rcases List.mem_cons.mp hp with h1 | h1
        · subst h1
          exact ⟨pos0, hq, Nat.le_of_not_lt hcnt⟩
        · exact ih h p h1

theorem checkPositions_ok_of (P : List (Nat × Position)) (cands : List Candidate)
    (L : List Nat)
    (h : ∀ p ∈ L, ∃ pos, lookupKV P p = some pos ∧
      countPosition cands p ≤ pos.votes_per_person) :
    checkPositions P cands L = Except.ok () := by
  induction L with
  | nil => rfl
  | cons p0 ps ih =>
    obtain ⟨pos0, hq, hcnt⟩ := h p0 (by simp)
    rw [checkPositions_cons, hq]
    simp only []
    rw [if_neg (Nat.not_lt.mpr hcnt)]
    exact ih (fun p hp => h p (by simp [hp]))

theorem checkPositions_err_of (P : List (Nat × Position)) (cands : List Candidate)
    (L : List Nat)
    (hres : ∀ p ∈ L, (lookupKV P p).isSome)
    (hex : ∃ p ∈ L, ∃ pos, lookupKV P p = some pos ∧
      pos.votes_per_person < countPosition cands p) :
    checkPositions P cands L = Except.error VoteErr.invalidVotes := by
  induction L with
  | nil => simp at hex
  | cons p0 ps ih =>
    obtain ⟨pos0, hq⟩ := Option.isSome_iff_exists.mp (hres p0 (by simp))
    rw [checkPositions_cons, hq]
    simp only []
    by_cases hcnt : pos0.votes_per_person < countPosition cands p0
    · rw [if_pos hcnt]
    · rw [if_neg hcnt]
      obtain ⟨p, hp, pos, hpos, hlt⟩ := hex
      rcases List.mem_cons.mp hp with h1 | h1
      · subst h1
        rw [hq] at hpos
        simp only [Option.some.injEq] at hpos
        subst hpos
        exact absurd hlt hcnt
      · exact ih (fun p' hp' => hres p' (by simp [hp'])) ⟨p, h1, pos, hpos, hlt⟩

/-
Voter counting lemmas.
-/

theorem countVoted_cons (q : (Nat × String) × Voter) (l : List ((Nat × String) × Voter)) :
    countVoted (q :: l) = (if q.2.voted then 1 else 0) + countVoted l := by
  simp only [countVoted, List.filter_cons]
  cases hv : q.2.voted <;> simp [hv] <;> omega

theorem countVoted_putKV_flip (l : List ((Nat × String) × Voter)) (k : Nat × String)
    (u u' : Voter) (h : lookupKV l k = some u) (hu : u.voted = false)
    (hu' : u'.voted = true) :
    countVoted (putKV l k u') = countVoted l + 1 := by
  induction l with
  | nil => simp [lookupKV] at h
  | cons q rest ih =>
    by_cases hq : k = q.1
    · have hc : q.2 = u := by
        have := h
        simp [lookupKV, hq] at this
        exact this
      simp only [putKV, if_pos hq]
      rw [countVoted_cons, countVoted_cons]
      simp only [hu', hc, hu]
      simp
      omega
    · have h' : lookupKV rest k = some u := by
        simpa [lookupKV, hq] using h
      simp only [putKV, if_neg hq]
      rw [countVoted_cons, countVoted_cons, ih h']
      omega

theorem keyCount_cons (q : (Nat × String) × Voter) (l : List ((Nat × String) × Voter))
    (k : Nat × String) :
    keyCount (q :: l) k = (if q.1 = k then 1 else 0) + keyCount l k := by
  simp only [keyCount, List.filter_cons]
  by_cases hq : q.1 = k <;> simp [hq] <;> omega

theorem keyCount_append_single (l : List ((Nat × String) × Voter))
    (k : Nat × String) (v : Voter) :
    keyCount (l ++ [(k, v)]) k = keyCount l k + 1 := by
  simp [keyCount, List.filter_append]

theorem keyCount_zero_of_lookup_none (l : List ((Nat × String) × Voter))
    (k : Nat × String) (h : lookupKV l k = none) : keyCount l k = 0 := by
  induction l with
  | nil => rfl
  | cons q rest ih =>
    by_cases hq : k = q.1
    · simp [lookupKV, hq] at h
    · have h' : lookupKV rest k = none := by simpa [lookupKV, hq] using h
      have hne : ¬ q.1 = k := fun he => hq he.symm
      rw [keyCount_cons, if_neg hne, ih h']

theorem keyCount_pos_of_lookup_some (l : List ((Nat × String) × Voter))
    (k : Nat × String) (v : Voter) (h : lookupKV l k = some v) :
    0 < keyCount l k := by
  induction l with
  | nil => simp [lookupKV] at h
  | cons q rest ih =>
    by_cases hq : k = q.1
    · rw [keyCount_cons, if_pos hq.symm]
      omega
    · have h' : lookupKV rest k = some v := by simpa [lookupKV, hq] using h
      have hne : ¬ q.1 = k := fun he => hq he.symm
      rw [keyCount_cons, if_neg hne]
      have := ih h'
      omega

/-
Decomposition of a committed _do_vote and vote_with_data call.
-/

theorem do_vote_ok_spec (st st2 : Store) (ukey : Nat × String) (ids : List Nat)
    (h : _do_vote st ukey ids = Except.ok st2) :
    ∃ u, lookupKV st.voters ukey = some u ∧ u.voted = false ∧
      (∃ cs, resolveAll st.candidates ids = some cs) ∧
      st2 = { st with
               voters := putKV st.voters ukey
                 { u with votes := ids, voted := true },
               candidates := incVotes st.candidates ids } := by
  unfold _do_vote at h
  cases hu : lookupKV st.voters ukey with
  | none => rw [hu] at h; simp at h
  | some u =>
    rw [hu] at h
    simp only [] at h
    cases hv : u.voted with
    | true => rw [if_pos hv] at h; simp at h
    | false =>
      rw [if_neg (by simp [hv])] at h
      cases hres : resolveAll st.candidates ids with
      | none => rw [hres] at h; simp at h
      | some cs =>
        rw [hres] at h
        simp only [Except.ok.injEq] at h
        exact ⟨u, rfl, hv, ⟨cs, rfl⟩, h.symm⟩

theorem vote_ok_spec (st st2 : Store) (token : String) (ids : List Nat)
    (h : vote_with_data st token ids = Except.ok st2) :
    ∃ ukey u cands,
      lookupKV st.voters ukey = some u ∧ u.voted = false ∧
      resolveAll st.candidates ids = some cands ∧
      checkPositions st.positions cands (sortedPosKeys cands) = Except.ok () ∧
      st2.positions = st.positions ∧
      st2.candidates = incVotes st.candidates ids ∧
      st2.voters = putKV st.voters ukey { u with votes := ids, voted := true } := by
  unfold vote_with_data at h
  cases hf : userFromToken st token with
  | none => rw [hf] at h; simp at h
  | some pr =>
    rw [hf] at h
    simp only [] at h
    cases hres : resolveAll st.candidates ids with
    | none => rw [hres] at h; simp at h
    | some cands =>
      rw [hres] at h
      simp only [] at h
      cases hchk : checkPositions st.positions cands (sortedPosKeys cands) with
      | error e => rw [hchk] at h; simp at h
      | ok unit1 =>
        cases unit1
        rw [hchk] at h
        simp only [] at h
        cases hdv : _do_vote st pr.1 ids with
        | error e => rw [hdv] at h; simp at h
        | ok stx =>
          rw [hdv] at h
          simp only [Except.ok.injEq] at h
          subst h
          obtain ⟨u, hu, hv, _, hst⟩ := do_vote_ok_spec st stx pr.1 ids hdv
          exact ⟨pr.1, u, cands, hu, hv, rfl, hchk,
            by rw [hst], by rw [hst], by rw [hst]⟩

/-
Claim theorems.
-/

/-- Claim C1: for every voter whose voted flag is true at the start of the
vote transaction, _do_vote aborts signalling the already-voted error and
performs no writes: after the rolled-back transaction the store, and with it
the voter record, the votes list of the voter and every candidate tally, are
exactly as before the call. -/
theorem C1_already_voted_aborts (st : Store) (ukey : Nat × String)
    (ids : List Nat) (u : Voter)
    (hu : lookupKV st.voters ukey = some u) (hv : u.voted = true) :
    _do_vote st ukey ids = Except.error DoVoteErr.alreadyVoted ∧
    afterTxn st (_do_vote st ukey ids) = st ∧
    lookupKV (afterTxn st (_do_vote st ukey ids)).voters ukey = some u ∧
    (∀ k, lookupKV (afterTxn st (_do_vote st ukey ids)).candidates k
      = lookupKV st.candidates k) := by
  have hdv : _do_vote st ukey ids = Except.error DoVoteErr.alreadyVoted := by
    unfold _do_vote
    rw [hu]
    simp [hv]
  refine ⟨hdv, ?_, ?_, ?_⟩
  · rw [hdv]
    rfl
  · rw [hdv]
    exact hu
  · intro k
    rw [hdv]
    rfl

/-- Witness for C1 at a concrete store whose single voter has voted. -/
theorem C1_already_voted_aborts_witness :
    _do_vote stAlready (1, "a") [] = Except.error DoVoteErr.alreadyVoted ∧
    afterTxn stAlready (_do_vote stAlready (1, "a") []) = stAlready ∧
    lookupKV (afterTxn stAlready (_do_vote stAlready (1, "a") [])).voters (1, "a")
      = some vAVoted ∧
    (∀ k, lookupKV (afterTxn stAlready (_do_vote stAlready (1, "a") [])).candidates k
      = lookupKV stAlready.candidates k) :=
  C1_already_voted_aborts stAlready (1, "a") [] vAVoted (by rfl) (by rfl)

/-- Claim C2: for every voter with voted false and every duplicate-free list
of resolving candidate keys, _do_vote succeeds, the stored voter record now
carries exactly that list with voted true, every selected candidate tally
grows by exactly one, and every other candidate entry is untouched. -/
theorem C2_successful_vote (st : Store) (ukey : Nat × String) (ids : List Nat)
    (u : Voter) (hu : lookupKV st.voters ukey = some u) (hv : u.voted = false)
    (hnd : ids.Nodup) (hres : ∀ k ∈ ids, (lookupKV st.candidates k).isSome) :
    ∃ st2, _do_vote st ukey ids = Except.ok st2 ∧
      lookupKV st2.voters ukey = some { u with votes := ids, voted := true } ∧
      (∀ k ∈ ids, ∀ c, lookupKV st.candidates k = some c →
        lookupKV st2.candidates k = some { c with num_votes := c.num_votes + 1 }) ∧
      (∀ k, k ∉ ids → lookupKV st2.candidates k = lookupKV st.candidates k) := by
  obtain ⟨cs, hcs⟩ := resolveAll_isSome_of st.candidates ids hres
  refine ⟨{ st with
             voters := putKV st.voters ukey { u with votes := ids, voted := true },
             candidates := incVotes st.candidates ids }, ?_, ?_, ?_, ?_⟩
  · unfold _do_vote
    rw [hu]
    simp only [hv]
    rw [if_neg (by simp)]
    rw [hcs]
  · exact lookupKV_putKV_self st.voters ukey _
  · intro k hk c hc
    exact incVotes_lookup_nodup ids st.candidates k c hnd hk hc
  · intro k hk
    exact incVotes_lookup_not_mem ids st.candidates k hk

/-- Witness for C2: the single voter of stOne votes for candidate 3. -/
theorem C2_successful_vote_witness :
    ∃ st2, _do_vote stOne (1, "a") [3] = Except.ok st2 ∧
      lookupKV st2.voters (1, "a") = some { vA with votes := [3], voted := true } ∧
      (∀ k ∈ [3], ∀ c, lookupKV stOne.candidates k = some c →
        lookupKV st2.candidates k = some { c with num_votes := c.num_votes + 1 }) ∧
      (∀ k, k ∉ [3] → lookupKV st2.candidates k = lookupKV stOne.candidates k) :=
  C2_successful_vote stOne (1, "a") [3] vA (by rfl) (by rfl) (by decide)
    (by decide)

/-- Claim C3: with the submitted keys resolved and every selected position
present, a selection set in which some position is over its votes_per_person
is rejected by vote_with_data with the invalid-votes error before any write,
and a set within the limit for every position passes the per-position
validation. -/
theorem C3_position_limit (st : Store) (token : String) (ids : List Nat)
    (pr : (Nat × String) × Voter) (cands : List Candidate)
    (hu : userFromToken st token = some pr)
    (hres : resolveAll st.candidates ids = some cands)
    (hpos : ∀ c ∈ cands, (lookupKV st.positions c.position).isSome) :
    ((∃ p pos, lookupKV st.positions p = some pos ∧
        pos.votes_per_person < countPosition cands p) →
      vote_with_data st token ids = Except.error VoteErr.invalidVotes ∧
      afterTxn st (vote_with_data st token ids) = st) ∧
    ((∀ c ∈ cands, ∀ pos, lookupKV st.positions c.position = some pos →
        countPosition cands c.position ≤ pos.votes_per_person) →
      checkPositions st.positions cands (sortedPosKeys cands) = Except.ok ()) := by
  constructor
  · rintro ⟨p, pos, hp, hlt⟩
    have hmem : p ∈ sortedPosKeys cands := by
      rw [mem_sortedPosKeys_iff]
      exact countPosition_pos_exists cands p (lt_of_le_of_lt (Nat.zero_le _) hlt)
    have hResKeys : ∀ p2 ∈ sortedPosKeys cands, (lookupKV st.positions p2).isSome := by
      intro p2 hp2
      obtain ⟨c, hc, hcp⟩ := (mem_sortedPosKeys_iff cands p2).mp hp2
      have := hpos c hc
      rw [hcp] at this
      exact this
    have hchk := checkPositions_err_of st.positions cands (sortedPosKeys cands)
      hResKeys ⟨p, hmem, pos, hp, hlt⟩
    have hv : vote_with_data st token ids = Except.error VoteErr.invalidVotes := by
      unfold vote_with_data
      rw [hu]
      simp only []
      rw [hres]
      simp only []
      rw [hchk]
    exact ⟨hv, by rw [hv]; rfl⟩
  · intro hall
    apply checkPositions_ok_of
    intro p hp
    obtain ⟨c, hc, hcp⟩ := (mem_sortedPosKeys_iff cands p).mp hp
    obtain ⟨pos, hpos2⟩ := Option.isSome_iff_exists.mp (hpos c hc)
    refine ⟨pos, by rw [← hcp]; exact hpos2, ?_⟩
    have := hall c hc pos hpos2
    rw [hcp] at this
    exact this

/-- Witness for C3: two selections under one position with a limit of one. -/
theorem C3_position_limit_witness :
    ((∃ p pos, lookupKV stTwo.positions p = some pos ∧
        pos.votes_per_person < countPosition
          [Candidate.mk 2 0, Candidate.mk 2 0] p) →
      vote_with_data stTwo "t" [3, 4] = Except.error VoteErr.invalidVotes ∧
      afterTxn stTwo (vote_with_data stTwo "t" [3, 4]) = stTwo) ∧
    ((∀ c ∈ [Candidate.mk 2 0, Candidate.mk 2 0],
        ∀ pos, lookupKV stTwo.positions c.position = some pos →
          countPosition [Candidate.mk 2 0, Candidate.mk 2 0]
            c.position ≤ pos.votes_per_person) →
      checkPositions stTwo.positions [Candidate.mk 2 0, Candidate.mk 2 0]
        (sortedPosKeys [Candidate.mk 2 0, Candidate.mk 2 0])
        = Except.ok ()) :=
  C3_position_limit stTwo "t" [3, 4] ((1, "a"), vA)
    [Candidate.mk 2 0, Candidate.mk 2 0]
    (by decide) (by decide) (by decide)

/-- Claim C4 counterexample: the empty selection set is not rejected; the
request succeeds and an empty ballot is committed, the voted flag of the
voter becoming true. -/
theorem C4_counterexample :
    vote_with_data stOne "t" [] = Except.ok stOneEmptyBallot ∧
    lookupKV stOneEmptyBallot.voters (1, "a") = some vAVoted ∧
    vAVoted.voted = true ∧ vAVoted.votes = [] := by
  refine ⟨by decide, by decide, by decide, by decide⟩

/-- Claim C4 amended: an empty selection set passes validation and commits an
empty ballot for an unvoted voter, while a selection set containing a key
that resolves to no candidate makes vote_with_data fail with the unhandled
server error, before any write, rather than a typed unknown-candidate
rejection. -/
theorem C4_amended (st : Store) (token : String) (ids : List Nat)
    (pr : (Nat × String) × Voter) (u : Voter)
    (hu : userFromToken st token = some pr) :
    (ids = [] → lookupKV st.voters pr.1 = some u → u.voted = false →
      vote_with_data st token ids = Except.ok
        { st with
            voters := putKV st.voters pr.1 { u with votes := [], voted := true } }) ∧
    ((∃ k ∈ ids, lookupKV st.candidates k = none) →
      vote_with_data st token ids = Except.error VoteErr.serverError ∧
      afterTxn st (vote_with_data st token ids) = st) := by
  constructor
  · intro hids hlu hv
    subst hids
    have hdo : _do_vote st pr.1 [] = Except.ok
        { st with
            voters := putKV st.voters pr.1 { u with votes := [], voted := true } } := by
      unfold _do_vote
      rw [hlu]
      simp only []
      rw [if_neg (by simp [hv])]
      rfl
    unfold vote_with_data
    rw [hu]
    simp only []
    show (match _do_vote st pr.1 [] with
      | Except.ok st2 => Except.ok st2
      | Except.error _ => Except.error VoteErr.transactionFail) = _
    rw [hdo]
  · rintro ⟨k, hk, hnone⟩
    have hres := resolveAll_none_of st.candidates ids k hk hnone
    have hv2 : vote_with_data st token ids = Except.error VoteErr.serverError := by
      unfold vote_with_data
      rw [hu]
      simp only []
      rw [hres]
    exact ⟨hv2, by rw [hv2]; rfl⟩

/-- Witness for C4 amended: a selection referencing the missing candidate
key 9 makes the request fail with the server error and no write. -/
theorem C4_amended_witness :
    (([9] : List Nat) = [] → lookupKV stOne.voters (1, "a") = some vA →
      vA.voted = false →
      vote_with_data stOne "t" [9] = Except.ok
        { stOne with
            voters := putKV stOne.voters (1, "a") { vA with votes := [], voted := true } }) ∧
    ((∃ k ∈ ([9] : List Nat), lookupKV stOne.candidates k = none) →
      vote_with_data stOne "t" [9] = Except.error VoteErr.serverError ∧
      afterTxn stOne (vote_with_data stOne "t" [9]) = stOne) :=
  C4_amended stOne "t" [9] ((1, "a"), vA) vA (by decide)

/-- Claim C6: _get_or_create_voting_user is idempotent: after a successful
call, a second call for the same election and identity returns the same
record (hence the same token) and leaves the registry unchanged; the key
holds at most one entry afterwards, and when the record already existed the
first call returned it unchanged. -/
theorem C6_get_or_create_idempotent (st : Store) (e : Nat)
    (sid tok tok2 : String) (now now2 : Nat) (st1 : Store) (v1 : Voter)
    (h : _get_or_create_voting_user st e sid tok now = Except.ok (st1, v1)) :
    _get_or_create_voting_user st1 e sid tok2 now2 = Except.ok (st1, v1) ∧
    keyCount st1.voters (e, sid) = max (keyCount st.voters (e, sid)) 1 ∧
    (∀ u, lookupKV st.voters (e, sid) = some u → st1 = st ∧ v1 = u) := by
  unfold _get_or_create_voting_user at h
  by_cases hlc : sid ≠ lowerStr sid
  · rw [if_pos hlc] at h
    simp at h
  · rw [if_neg hlc] at h
    cases hlu : lookupKV st.voters (e, sid) with
    | some u =>
      rw [hlu] at h
      simp only [Except.ok.injEq, Prod.mk.injEq] at h
      obtain ⟨hst, hv⟩ := h
      subst hst
      subst hv
      refine ⟨?_, ?_, ?_⟩
      · unfold _get_or_create_voting_user
        rw [if_neg hlc, hlu]
      · have h1 := keyCount_pos_of_lookup_some st.voters (e, sid) u hlu
        omega
      · intro u2 hu2
        injection hu2 with h3
        exact ⟨rfl, h3⟩
    | none =>
      rw [hlu] at h
      simp only [Except.ok.injEq, Prod.mk.injEq] at h
      obtain ⟨hst, hv⟩ := h
      subst hv
      refine ⟨?_, ?_, ?_⟩
      · unfold _get_or_create_voting_user
        rw [if_neg hlc]
        rw [← hst]
        simp only []
        rw [lookupKV_putKV_self]
      · rw [← hst]
        simp only []
        rw [putKV_absent st.voters (e, sid) (mkVoter sid tok now) hlu]
        rw [keyCount_append_single, keyCount_zero_of_lookup_none st.voters (e, sid) hlu]
        rfl
      · intro u2 hu2
        simp at hu2

/-- Witness for C6: first registration on the empty store, then the
idempotent second call. -/
theorem C6_get_or_create_idempotent_witness :
    _get_or_create_voting_user
        (Store.mk [((1, "a"), mkVoter "a" "t" 0)] [] []) 1 "a" "u" 7
      = Except.ok
        (Store.mk [((1, "a"), mkVoter "a" "t" 0)] [] [], mkVoter "a" "t" 0) ∧
    keyCount (Store.mk [((1, "a"), mkVoter "a" "t" 0)] [] []).voters (1, "a")
      = max (keyCount stEmptyStore.voters (1, "a")) 1 ∧
    (∀ u, lookupKV stEmptyStore.voters (1, "a") = some u →
      Store.mk [((1, "a"), mkVoter "a" "t" 0)] [] [] = stEmptyStore ∧
      mkVoter "a" "t" 0 = u) :=
  C6_get_or_create_idempotent stEmptyStore 1 "a" "t" "u" 0 7
    (Store.mk [((1, "a"), mkVoter "a" "t" 0)] [] [])
    (mkVoter "a" "t" 0) (by decide)

/-- Claim C7: _get_rest_wait_time returns zero when email_count is zero;
otherwise, with the required wait of 10 times 2 to the email_count minus one
minutes and the elapsed whole minutes since create_time, it returns zero
exactly when the elapsed time has reached the required wait, and the
remaining minutes otherwise; the required wait for one, two and three sent
emails is 10, 20 and 40 minutes. -/
theorem C7_backoff (voting_user : Voter) (now_seconds : Nat)
    (hct : voting_user.create_time ≤ now_seconds) :
    (voting_user.email_count = 0 → _get_rest_wait_time voting_user now_seconds = 0) ∧
    (0 < voting_user.email_count →
      ((_get_rest_wait_time voting_user now_seconds = 0 ↔
        10 * 2 ^ (voting_user.email_count - 1) ≤
          (now_seconds - voting_user.create_time) / 60) ∧
      ((now_seconds - voting_user.create_time) / 60 <
          10 * 2 ^ (voting_user.email_count - 1) →
        _get_rest_wait_time voting_user now_seconds =
          10 * 2 ^ (voting_user.email_count - 1) -
            (now_seconds - voting_user.create_time) / 60))) ∧
    (10 * 2 ^ (1 - 1) = 10 ∧ 10 * 2 ^ (2 - 1) = 20 ∧ 10 * 2 ^ (3 - 1) = 40) := by
  have hun : _get_rest_wait_time voting_user now_seconds =
      if 0 < voting_user.email_count then
        (if (now_seconds - voting_user.create_time) / 60 <
            10 * 2 ^ (voting_user.email_count - 1) then
          10 * 2 ^ (voting_user.email_count - 1) -
            (now_seconds - voting_user.create_time) / 60
        else 0)
      else 0 := rfl
  refine ⟨?_, ?_, by norm_num⟩
  · intro h0
    rw [hun, if_neg (by omega)]
  · intro hpos
    rw [hun, if_pos hpos]
    by_cases hlt : (now_seconds - voting_user.create_time) / 60 <
        10 * 2 ^ (voting_user.email_count - 1)
    · rw [if_pos hlt]
      refine ⟨⟨fun h => by omega, fun h => by omega⟩, fun _ => rfl⟩
    · rw [if_neg hlt]
      refine ⟨⟨fun _ => by omega, fun _ => rfl⟩, fun h => by omega⟩

/-- Witness for C7 at a voter with one email sent and no elapsed time. -/
theorem C7_backoff_witness :
    (({ vA with email_count := 1 } : Voter).email_count = 0 →
      _get_rest_wait_time { vA with email_count := 1 } 0 = 0) ∧
    (0 < ({ vA with email_count := 1 } : Voter).email_count →
      ((_get_rest_wait_time { vA with email_count := 1 } 0 = 0 ↔
        10 * 2 ^ (({ vA with email_count := 1 } : Voter).email_count - 1) ≤
          (0 - ({ vA with email_count := 1 } : Voter).create_time) / 60) ∧
      ((0 - ({ vA with email_count := 1 } : Voter).create_time) / 60 <
          10 * 2 ^ (({ vA with email_count := 1 } : Voter).email_count - 1) →
        _get_rest_wait_time { vA with email_count := 1 } 0 =
          10 * 2 ^ (({ vA with email_count := 1 } : Voter).email_count - 1) -
            (0 - ({ vA with email_count := 1 } : Voter).create_time) / 60))) ∧
    (10 * 2 ^ (1 - 1) = 10 ∧ 10 * 2 ^ (2 - 1) = 20 ∧ 10 * 2 ^ (3 - 1) = 40) :=
  C7_backoff { vA with email_count := 1 } 0 (by decide)

/-- Claim C8: _get_or_create_voting_user fails with the invalid-identity
error exactly на a student id that is not its own lowercase form, the
registry being unchanged on that error, and succeeds on every lowercase id. -/
theorem C8_lowercase_identity (st : Store) (e : Nat) (sid tok : String)
    (now : Nat) :
    (sid ≠ lowerStr sid →
      _get_or_create_voting_user st e sid tok now
        = Except.error RegErr.invalidIdentity ∧
      afterReg st (_get_or_create_voting_user st e sid tok now) = st) ∧
    (sid = lowerStr sid →
      ∃ r, _get_or_create_voting_user st e sid tok now = Except.ok r) := by
  constructor
  · intro h
    have he : _get_or_create_voting_user st e sid tok now
        = Except.error RegErr.invalidIdentity := by
      unfold _get_or_create_voting_user
      rw [if_pos h]
    exact ⟨he, by rw [he]; rfl⟩
  · intro h
    unfold _get_or_create_voting_user
    rw [if_neg (not_not_intro h)]
    cases hlu : lookupKV st.voters (e, sid) with
    | some u => exact ⟨(st, u), rfl⟩
    | none => exact ⟨_, rfl⟩

/-- Witness for C8 at the uppercase id A. -/
theorem C8_lowercase_identity_witness :
    (("A" : String) ≠ lowerStr "A" →
      _get_or_create_voting_user stEmptyStore 1 "A" "t" 0
        = Except.error RegErr.invalidIdentity ∧
      afterReg stEmptyStore (_get_or_create_voting_user stEmptyStore 1 "A" "t" 0)
        = stEmptyStore) ∧
    (("A" : String) = lowerStr "A" →
      ∃ r, _get_or_create_voting_user stEmptyStore 1 "A" "t" 0 = Except.ok r) :=
  C8_lowercase_identity stEmptyStore 1 "A" "t" 0

/-- Claim C10: the forced_send post value counts as true only when it is
exactly the string true; the JSON boolean true, the string True and an
absent value all parse to false, and for a voter with one or more emails
already sent such a request sends nothing. -/
theorem C10_forced_send_literal (pv : PostValue) (voting_user : Voter)
    (now_seconds : Nat) (hpv : pv ≠ PostValue.str "true")
    (hec : 0 < voting_user.email_count) :
    parseForcedSend pv = false ∧
    parseForcedSend (PostValue.bool true) = false ∧
    parseForcedSend (PostValue.str "True") = false ∧
    parseForcedSend PostValue.absent = false ∧
    send_voting_email pv voting_user now_seconds ≠ EmailResult.sent := by
  have hf : parseForcedSend pv = false := by
    cases pv with
    | str s =>
      have hs : s ≠ "true" := fun he => hpv (by rw [he])
      simp [parseForcedSend, hs]
    | bool b => rfl
    | absent => rfl
  refine ⟨hf, rfl, by decide, rfl, ?_⟩
  have hrw : send_voting_email pv voting_user now_seconds =
      if voting_user.voted then EmailResult.alreadyVoted
      else
        if (voting_user.email_count == 0
            || (parseForcedSend pv
                && (_get_rest_wait_time voting_user now_seconds == 0))) = true then
          EmailResult.sent
        else EmailResult.notSent := rfl
  rw [hrw, hf]
  by_cases hv : voting_user.voted
  · rw [if_pos hv]
    simp
  · rw [if_neg hv]
    have hcond : (voting_user.email_count == 0
        || (false && (_get_rest_wait_time voting_user now_seconds == 0))) = false := by
      simp
      omega
    rw [hcond]
    simp

/-- Witness for C10 at the JSON boolean true and a voter with one email
sent. -/
theorem C10_forced_send_literal_witness :
    parseForcedSend (PostValue.bool true) = false ∧
    parseForcedSend (PostValue.bool true) = false ∧
    parseForcedSend (PostValue.str "True") = false ∧
    parseForcedSend PostValue.absent = false ∧
    send_voting_email (PostValue.bool true) { vA with email_count := 1 } 0
      ≠ EmailResult.sent :=
  C10_forced_send_literal (PostValue.bool true) { vA with email_count := 1 } 0
    (by decide) (by decide)

/-- Claim C5 counterexample: from a store satisfying the initial conditions,
one validated vote submission by an election-1 voter for a candidate whose
position belongs to election 5 reaches a store where the tally sum of that
position is one while no voter of election 5 has voted, so the per-election
bound of the claim fails. -/
theorem C5_counterexample :
    Init stCross ∧ Reach stCross stCrossAfter ∧
    lookupKV stCrossAfter.positions 2 = some (Position.mk 5 1) ∧
    sumVotes stCrossAfter.candidates 2 = 1 ∧
    countVotedElection stCrossAfter.voters 5 = 0 ∧
    ¬ (sumVotes stCrossAfter.candidates 2
        ≤ (Position.mk 5 1).votes_per_person
            * countVotedElection stCrossAfter.voters 5) := by
  refine ⟨⟨by decide, by decide⟩, ?_, by decide, by decide, by decide, by decide⟩
  exact Reach.step stCross stCross stCrossAfter "t" [3]
    (Reach.refl stCross) (by decide)

/-- Claim C5 amended: in every store reachable by validated vote submissions
from a store with no recorded ballot and all tallies zero, the tally sum of
every position is at most its votes_per_person times the number of voters in
the whole system whose voted flag is true (the code never checks that a
ballot stays inside the election of the voter, so the per-election count of
the original claim does not bound the sum, but the global count does). -/
theorem C5_tally_bound (st0 st : Store) (h0 : Init st0) (hR : Reach st0 st)
    (p : Nat) (pos : Position) (hp : lookupKV st.positions p = some pos) :
    sumVotes st.candidates p ≤ pos.votes_per_person * countVoted st.voters := by
  induction hR with
  | refl =>
    rw [sumVotes_zero st0.candidates p h0.2]
    exact Nat.zero_le _
  | step stb stc tok2 ids2 h1 h2 ih =>
    obtain ⟨ukey, u, cands, hu, hv, hres, hchk, hpos2, hcand2, hvot2⟩ :=
      vote_ok_spec stb stc tok2 ids2 h2
    have hp1 : lookupKV stb.positions p = some pos := by
      rw [← hpos2]
      exact hp
    have hsum1 := ih hp1
    have hpres : ∀ k ∈ ids2, (lookupKV stb.candidates k).isSome :=
      resolveAll_mem_isSome stb.candidates ids2 cands hres
    have hsum2 : sumVotes stc.candidates p
        = sumVotes stb.candidates p + countPosition cands p := by
      rw [hcand2, sumVotes_incVotes ids2 stb.candidates p hpres,
          countPosKeys_resolveAll stb.candidates ids2 cands hres]
    have hcnt2 : countVoted stc.voters = countVoted stb.voters + 1 := by
      rw [hvot2]
      exact countVoted_putKV_flip stb.voters ukey u _ hu hv rfl
    have hbound : countPosition cands p ≤ pos.votes_per_person := by
      rcases Nat.eq_zero_or_pos (countPosition cands p) with hz | hpos3
      · omega
      · obtain ⟨c, hc, hcp⟩ := countPosition_pos_exists cands p hpos3
        have hmem : p ∈ sortedPosKeys cands :=
          (mem_sortedPosKeys_iff cands p).mpr ⟨c, hc, hcp⟩
        obtain ⟨pos2, hq2, hle⟩ :=
          checkPositions_ok_spec stb.positions cands (sortedPosKeys cands) hchk p hmem
        rw [hp1] at hq2
        injection hq2 with h4
        rw [h4]
        exact hle
    rw [hsum2, hcnt2]
    calc sumVotes stb.candidates p + countPosition cands p
        ≤ pos.votes_per_person * countVoted stb.voters + pos.votes_per_person := by
          omega
      _ = pos.votes_per_person * (countVoted stb.voters + 1) := by ring

/-- Witness for C5 amended at the concrete cross-election trace. -/
theorem C5_tally_bound_witness :
    Init stCross ∧
    sumVotes stCrossAfter.candidates 2
      ≤ (Position.mk 5 1).votes_per_person * countVoted stCrossAfter.voters :=
  ⟨⟨by decide, by decide⟩,
   C5_tally_bound stCross stCrossAfter ⟨by decide, by decide⟩
     (Reach.step stCross stCross stCrossAfter "t" [3]
       (Reach.refl stCross) (by decide))
     2 (Position.mk 5 1) (by decide)⟩

/-- Claim C9 counterexample: the source never compares a freshly generated
token with the tokens already stored, so two registrations whose uuid4 draws
collide reach a registry where two distinct voters hold the same token. -/
theorem C9_counterexample :
    TokensDistinct stEmptyStore ∧
    ReachRegAny stEmptyStore stDupTok ∧
    stDupTok.voters.map (fun q => q.2.token) = ["t", "t"] ∧
    ¬ TokensDistinct stDupTok := by
  refine ⟨List.Pairwise.nil, ?_, by decide, ?_⟩
  · exact ReachRegAny.step stEmptyStore
      (Store.mk [((1, "a"), mkVoter "a" "t" 0)] [] []) stDupTok 1 "b" "t" 0
      (mkVoter "b" "t" 0)
      (ReachRegAny.step stEmptyStore stEmptyStore
        (Store.mk [((1, "a"), mkVoter "a" "t" 0)] [] []) 1 "a" "t" 0
        (mkVoter "a" "t" 0) (ReachRegAny.refl stEmptyStore) (by decide))
      (by decide)
  · intro h
    have h2 := (List.pairwise_cons.mp h).1 ((1, "b"), mkVoter "b" "t" 0) (by decide)
    exact h2 rfl

/-- Claim C9 amended: provided every registration draws a fresh token absent
from the registry (uuid4 assumed collision-free), every store reachable by
registrations from a token-distinct registry keeps all voter tokens pairwise
distinct. -/
theorem C9_token_uniqueness_fresh (st0 st : Store) (h0 : TokensDistinct st0)
    (hR : ReachRegFresh st0 st) : TokensDistinct st := by
  induction hR with
  | refl => exact h0
  | step stb stc e sid tok now v h1 hfresh heq ih =>
    unfold _get_or_create_voting_user at heq
    by_cases hlc : sid ≠ lowerStr sid
    · rw [if_pos hlc] at heq
      simp at heq
    · rw [if_neg hlc] at heq
      cases hlu : lookupKV stb.voters (e, sid) with
      | some u =>
        rw [hlu] at heq
        simp only [Except.ok.injEq, Prod.mk.injEq] at heq
        exact heq.1 ▸ ih
      | none =>
        rw [hlu] at heq
        simp only [Except.ok.injEq, Prod.mk.injEq] at heq
        obtain ⟨hst, hvv⟩ := heq
        rw [← hst]
        show List.Pairwise (fun a b => a.2.token ≠ b.2.token)
          (putKV stb.voters (e, sid) (mkVoter sid tok now))
        rw [putKV_absent stb.voters (e, sid) (mkVoter sid tok now) hlu]
        rw [List.pairwise_append]
        refine ⟨ih, List.pairwise_singleton _ _, ?_⟩
        intro a ha b hb
        simp only [List.mem_singleton] at hb
        rw [hb]
        exact hfresh a ha

/-- Witness for C9 amended: two registrations with distinct fresh tokens
keep the registry token-distinct. -/
theorem C9_token_uniqueness_fresh_witness : TokensDistinct stFreshTok :=
  C9_token_uniqueness_fresh stEmptyStore stFreshTok List.Pairwise.nil
    (ReachRegFresh.step stEmptyStore
      (Store.mk [((1, "a"), mkVoter "a" "t" 0)] [] [])
      stFreshTok 1 "b" "u" 0 (mkVoter "b" "u" 0)
      (ReachRegFresh.step stEmptyStore stEmptyStore
        (Store.mk [((1, "a"), mkVoter "a" "t" 0)] [] []) 1 "a" "t" 0
        (mkVoter "a" "t" 0) (ReachRegFresh.refl stEmptyStore) (by decide)
        (by decide))
      (by decide) (by decide))
